import Mathlib

/-!
# Verification of the `type-census` counting engine

A shallow embedding of the `type-census` Rust crate:

* `src/counter.rs` — the pluggable counter strategies (`RelaxedCounter`,
  `SeqCstCounter`, `DistributedCounter<BUCKETS>`), modelled over `Int` with
  explicit wrapping modulo `2^64` (the crate stores counts in `AtomicIsize`;
  we model the common 64-bit target, where `isize` arithmetic wraps).
* `src/lib.rs` — the dynamic type-keyed registry (`Census`, a concurrent map
  from `TypeId` to a leaked `AtomicU64`), the lifetime guard `Instance<T>`,
  and the `Tabulate` query interface.  Registry state is modelled as an
  association list with unique keys (a `DashMap` keyed by `TypeId`), and the
  stateful operations (`Instance::new`, `Clone::clone`, `Drop::drop`,
  `Census::instances`) as explicit state-passing functions.

All executions are sequential (single-threaded interleavings); the
`compare_exchange_weak` retry loop of the distributed counter is modelled by
an oracle giving the number of spurious CAS failures before the successful
attempt.
-/

namespace TypeCensus

/-! ## 64-bit `isize` arithmetic

`AtomicIsize::fetch_add` / `fetch_sub` / `compare_exchange` store the result
of two's-complement wrapping arithmetic.  `wrapI x` is the value of the
mathematical integer `x` reduced into the signed 64-bit range
`[-2^63, 2^63)`. -/

/-- Reduce an integer into the signed 64-bit range `[-2^63, 2^63)`,
two's-complement style. -/
def wrapI (x : Int) : Int :=
  (x + 9223372036854775808) % 18446744073709551616 - 9223372036854775808

theorem wrapI_lower (x : Int) : -9223372036854775808 ≤ wrapI x := by
  unfold wrapI; omega

theorem wrapI_upper (x : Int) : wrapI x < 9223372036854775808 := by
  unfold wrapI; omega

theorem wrapI_eq_self {x : Int} (h1 : -9223372036854775808 ≤ x)
    (h2 : x < 9223372036854775808) : wrapI x = x := by
  unfold wrapI; omega

theorem wrapI_add_left (x y : Int) : wrapI (wrapI x + y) = wrapI (x + y) := by
  unfold wrapI; omega

theorem wrapI_add_right (x y : Int) : wrapI (x + wrapI y) = wrapI (x + y) := by
  unfold wrapI; omega

theorem wrapI_sub_emod (x : Int) : (wrapI x - x) % 18446744073709551616 = 0 := by
  unfold wrapI; omega

/-! ## Counter operations

The `Counter` trait offers `add_assign(n)`, `sub_assign(n)` and `fetch()`.
A sequential history of mutations is a list of operations. -/

/-- One mutation of a counter: `Counter::add_assign n` or `Counter::sub_assign n`.
The argument is an `isize`, i.e. an integer in `[-2^63, 2^63)`. -/
inductive CounterOp where
  | add (n : Int)
  | sub (n : Int)
deriving DecidableEq, Repr

/-- The contribution of one operation to the mathematical net sum. -/
def CounterOp.net : CounterOp → Int
  | .add n => n
  | .sub n => -n

/-- The mathematical (unwrapped) net sum of a sequence of operations. -/
def netSum : List CounterOp → Int
  | [] => 0
  | op :: rest => op.net + netSum rest

/-! ## `RelaxedCounter` (src/counter.rs)

State: the value of the single cache-padded `AtomicIsize`.
`fetch_add`/`fetch_sub` with `Ordering::Relaxed` store the wrapped result. -/

namespace RelaxedCounter

/-- `RelaxedCounter::ZERO`. -/
def ZERO : Int := 0

/-- `RelaxedCounter::add_assign`: `self.counter.fetch_add(n, Relaxed)`. -/
def add_assign (c n : Int) : Int := wrapI (c + n)

/-- `RelaxedCounter::sub_assign`: `self.counter.fetch_sub(n, Relaxed)`. -/
def sub_assign (c n : Int) : Int := wrapI (c - n)

/-- `RelaxedCounter::fetch`: `self.counter.load(Relaxed)`. -/
def fetch (c : Int) : Int := c

/-- Apply a sequence of operations to a `RelaxedCounter`, sequentially. -/
def run (c : Int) : List CounterOp → Int
  | [] => c
  | .add n :: rest => run (add_assign c n) rest
  | .sub n :: rest => run (sub_assign c n) rest

theorem run_wrapI (ops : List CounterOp) :
    ∀ c : Int, run (wrapI c) ops = wrapI (c + netSum ops) := by
  induction ops with
  | nil => intro c; simp [run, netSum]
  | cons op rest ih =>
    intro c
    cases op with
    | add n =>
      simp only [run, add_assign, netSum, CounterOp.net, wrapI_add_left, ih]
      ring_nf
    | sub n =>
      simp only [run, sub_assign, netSum, CounterOp.net]
      rw [show wrapI c - n = wrapI c + -n by ring, wrapI_add_left, ih]
      ring_nf

/-- From zero, the relaxed counter reads the wrapped net sum. -/
theorem run_zero_relaxed (ops : List CounterOp) : run ZERO ops = wrapI (netSum ops) := by
  have h := run_wrapI ops 0
  simpa [ZERO, wrapI] using h

end RelaxedCounter

/-! ## `SeqCstCounter` (src/counter.rs)

Identical layout and arithmetic to `RelaxedCounter`; only the memory
ordering differs (`Ordering::SeqCst`), which is unobservable sequentially. -/

namespace SeqCstCounter

/-- `SeqCstCounter::ZERO`. -/
def ZERO : Int := 0

/-- `SeqCstCounter::add_assign`: `self.counter.fetch_add(n, SeqCst)`. -/
def add_assign (c n : Int) : Int := wrapI (c + n)

/-- `SeqCstCounter::sub_assign`: `self.counter.fetch_sub(n, SeqCst)`. -/
def sub_assign (c n : Int) : Int := wrapI (c - n)

/-- `SeqCstCounter::fetch`: `self.counter.load(SeqCst)`. -/
def fetch (c : Int) : Int := c

/-- Apply a sequence of operations to a `SeqCstCounter`, sequentially. -/
def run (c : Int) : List CounterOp → Int
  | [] => c
  | .add n :: rest => run (add_assign c n) rest
  | .sub n :: rest => run (sub_assign c n) rest

theorem run_eq_relaxed (ops : List CounterOp) :
    ∀ c : Int, run c ops = RelaxedCounter.run c ops := by
  induction ops with
  | nil => intro c; rfl
  | cons op rest ih =>
    intro c
    cases op with
    | add n =>
      simp only [run, RelaxedCounter.run, add_assign, RelaxedCounter.add_assign, ih]
    | sub n =>
      simp only [run, RelaxedCounter.run, sub_assign, RelaxedCounter.sub_assign, ih]

/-- From zero, the sequentially-consistent counter reads the wrapped net sum. -/
theorem run_zero_seqcst (ops : List CounterOp) : run ZERO ops = wrapI (netSum ops) := by
  rw [run_eq_relaxed]
  exact RelaxedCounter.run_zero_relaxed ops

end SeqCstCounter

/-! ## List helper lemmas for the bucket array -/

theorem getD_set_self (l : List Int) (i : Nat) (v : Int) (h : i < l.length) :
    (l.set i v).getD i 0 = v := by
  induction l generalizing i with
  | nil => simp at h
  | cons a rest ih =>
    cases i with
    | zero => rfl
    | succ j =>
      simp only [List.set, List.getD, List.get?]
      have := ih j (by simpa using h)
      simpa [List.getD] using this

theorem getD_set_other (l : List Int) (i j : Nat) (v : Int) (h : j ≠ i) :
    (l.set i v).getD j 0 = l.getD j 0 := by
  induction l generalizing i j with
  | nil => rfl
  | cons a rest ih =>
    cases i with
    | zero =>
      cases j with
      | zero => exact absurd rfl h
      | succ j0 => rfl
    | succ i0 =>
      cases j with
      | zero => rfl
      | succ j0 =>
        simp only [List.set, List.getD, List.get?]
        have := ih i0 j0 (fun hc => h (by rw [hc]))
        simpa [List.getD] using this

theorem sum_set (l : List Int) (i : Nat) (v : Int) (h : i < l.length) :
    (l.set i v).sum = l.sum - l.getD i 0 + v := by
  induction l generalizing i with
  | nil => simp at h
  | cons a rest ih =>
    cases i with
    | zero =>
      simp [List.set, List.getD]
      ring
    | succ j =>
      simp only [List.set, List.sum_cons]
      rw [ih j (by simpa using h)]
      simp [List.getD]
      ring

/-! ## `DistributedCounter<BUCKETS>` (src/counter.rs)

State: the list of `BUCKETS` cache-padded `AtomicIsize` bucket values.
A writer starts at bucket `thread_id % BUCKETS` and, each time the
`compare_exchange_weak` fails, advances to `(bucket + 1) % BUCKETS`.
Sequentially (no interference) the CAS can still fail spuriously, so one
completed `add_assign` call is parametrised by the number `k` of failed
attempts before the successful one. -/

namespace DistributedCounter

/-- `DistributedCounter::<BUCKETS>::new()`: every bucket starts at `0`. -/
def ZERO (BUCKETS : Nat) : List Int := List.replicate BUCKETS 0

/-- The bucket probed on attempt `k` by a thread with identity `tid`:
the loop in `add_assign` starts at `id % BUCKETS` and advances by one
(mod `BUCKETS`) after each failed `try_add_assign`. -/
def probe (BUCKETS tid k : Nat) : Nat := (tid % BUCKETS + k) % BUCKETS

/-- One completed `DistributedCounter::add_assign(n)` call by thread `tid`
whose `compare_exchange_weak` failed `k` times before succeeding: the
successful `try_add_assign` replaces the observed bucket value `count`
with `count.wrapping_add(n)`; failed attempts change nothing. -/
def add_assign (buckets : List Int) (tid k : Nat) (n : Int) : List Int :=
  let i := probe buckets.length tid k
  buckets.set i (wrapI (buckets.getD i 0 + n))

/-- `DistributedCounter::sub_assign(n)`: `self.add_assign(-n)`.  The Rust
negation `-n` is `isize` (wrapping) negation, hence `wrapI (-n)`. -/
def sub_assign (buckets : List Int) (tid k : Nat) (n : Int) : List Int :=
  add_assign buckets tid k (wrapI (-n))

/-- `DistributedCounter::fetch`: `sum = sum.wrapping_add(bucket.load(SeqCst))`
over all buckets, starting from `0isize`. -/
def fetch (buckets : List Int) : Int :=
  buckets.foldl (fun sum b => wrapI (sum + b)) 0

theorem foldl_wrapI (l : List Int) :
    ∀ s : Int, l.foldl (fun sum b => wrapI (sum + b)) (wrapI s) = wrapI (s + l.sum) := by
  induction l with
  | nil => intro s; simp
  | cons a rest ih =>
    intro s
    simp only [List.foldl_cons, wrapI_add_left, ih, List.sum_cons]
    ring_nf

/-- `fetch` returns the wrapped mathematical sum of the buckets. -/
theorem fetch_eq_wrapI_sum (buckets : List Int) : fetch buckets = wrapI buckets.sum := by
  have h := foldl_wrapI buckets 0
  simp only [fetch]
  rw [show (0 : Int) = wrapI 0 by simp [wrapI], h]
  simp

theorem probe_lt (BUCKETS tid k : Nat) (h : 0 < BUCKETS) : probe BUCKETS tid k < BUCKETS :=
  Nat.mod_lt _ h

theorem length_add_assign (buckets : List Int) (tid k : Nat) (n : Int) :
    (add_assign buckets tid k n).length = buckets.length := by
  simp [add_assign]

/-- A completed `add_assign` changes the wrapped total by `n`. -/
theorem sum_add_assign (buckets : List Int) (tid k : Nat) (n : Int)
    (h : 0 < buckets.length) :
    wrapI (add_assign buckets tid k n).sum = wrapI (buckets.sum + n) := by
  simp only [add_assign]
  rw [sum_set _ _ _ (probe_lt _ tid k h)]
  rw [show buckets.sum - buckets.getD (probe buckets.length tid k) 0 +
        wrapI (buckets.getD (probe buckets.length tid k) 0 + n) =
      wrapI (buckets.getD (probe buckets.length tid k) 0 + n) +
        (buckets.sum - buckets.getD (probe buckets.length tid k) 0) by ring]
  rw [wrapI_add_left]
  ring_nf

end DistributedCounter

/-- One sequential call to the distributed counter: the operation together
with the calling thread's identity and the number of spurious CAS failures
it incurs. -/
structure DOp where
  op : CounterOp
  tid : Nat
  spurious : Nat
deriving DecidableEq, Repr

/-- The mathematical net sum of a sequence of distributed-counter calls. -/
def dnetSum : List DOp → Int
  | [] => 0
  | d :: rest => d.op.net + dnetSum rest

namespace DistributedCounter

/-- Apply a sequence of calls to a `DistributedCounter`, sequentially. -/
def run (buckets : List Int) : List DOp → List Int
  | [] => buckets
  | d :: rest =>
    match d.op with
    | .add n => run (add_assign buckets d.tid d.spurious n) rest
    | .sub n => run (sub_assign buckets d.tid d.spurious n) rest

theorem length_run (dops : List DOp) :
    ∀ buckets : List Int, (run buckets dops).length = buckets.length := by
  induction dops with
  | nil => intro buckets; rfl
  | cons d rest ih =>
    intro buckets
    cases hop : d.op with
    | add n => simp [run, hop, ih, length_add_assign]
    | sub n => simp [run, hop, sub_assign, ih, length_add_assign]

theorem sum_run (dops : List DOp) :
    ∀ buckets : List Int, 0 < buckets.length →
      wrapI (run buckets dops).sum = wrapI (buckets.sum + dnetSum dops) := by
  induction dops with
  | nil => intro buckets _; simp [run, dnetSum]
  | cons d rest ih =>
    intro buckets h
    cases hop : d.op with
    | add n =>
      simp only [run, hop]
      rw [ih _ (by simpa [length_add_assign] using h)]
      rw [show buckets.sum + dnetSum (d :: rest) =
            buckets.sum + n + dnetSum rest by simp [dnetSum, hop, CounterOp.net]; ring]
      rw [show (add_assign buckets d.tid d.spurious n).sum + dnetSum rest =
            (add_assign buckets d.tid d.spurious n).sum + dnetSum rest from rfl]
      have hs := sum_add_assign buckets d.tid d.spurious n h
      calc wrapI ((add_assign buckets d.tid d.spurious n).sum + dnetSum rest)
          = wrapI (wrapI (add_assign buckets d.tid d.spurious n).sum + dnetSum rest) := by
            rw [wrapI_add_left]
        _ = wrapI (wrapI (buckets.sum + n) + dnetSum rest) := by rw [hs]
        _ = wrapI (buckets.sum + n + dnetSum rest) := by rw [wrapI_add_left]
    | sub n =>
      simp only [run, hop, sub_assign]
      rw [ih _ (by simpa [length_add_assign] using h)]
      have hs := sum_add_assign buckets d.tid d.spurious (wrapI (-n)) h
      have key : wrapI (buckets.sum + wrapI (-n) + dnetSum rest) =
          wrapI (buckets.sum + -n + dnetSum rest) := by
        rw [show buckets.sum + wrapI (-n) + dnetSum rest =
              buckets.sum + dnetSum rest + wrapI (-n) by ring]
        rw [wrapI_add_right]
        ring_nf
      calc wrapI ((add_assign buckets d.tid d.spurious (wrapI (-n))).sum + dnetSum rest)
          = wrapI (wrapI (add_assign buckets d.tid d.spurious (wrapI (-n))).sum +
              dnetSum rest) := by rw [wrapI_add_left]
        _ = wrapI (wrapI (buckets.sum + wrapI (-n)) + dnetSum rest) := by rw [hs]
        _ = wrapI (buckets.sum + wrapI (-n) + dnetSum rest) := by rw [wrapI_add_left]
        _ = wrapI (buckets.sum + -n + dnetSum rest) := key
        _ = wrapI (buckets.sum + dnetSum (d :: rest)) := by
            simp [dnetSum, hop, CounterOp.net]; ring_nf

/-- From the all-zero bucket array, `fetch` after any sequence of sequential
calls reads the wrapped net sum. -/
theorem fetch_run_zero (BUCKETS : Nat) (h : 0 < BUCKETS) (dops : List DOp) :
    fetch (run (ZERO BUCKETS) dops) = wrapI (dnetSum dops) := by
  rw [fetch_eq_wrapI_sum, sum_run dops (ZERO BUCKETS) (by simp [ZERO, h])]
  simp [ZERO]

end DistributedCounter

/-! ## The dynamic registry (src/lib.rs)

`Census` wraps a `DashMap<TypeId, &'static AtomicU64>`.  We model `TypeId`
as `Nat` (Rust guarantees distinct concrete types have distinct `TypeId`s)
and the map as an association list with unique keys; each entry's value is
the current `u64` count of its leaked `AtomicU64` (so values live in
`[0, 2^64)` and `fetch_add`/`fetch_sub` wrap modulo `2^64`).

Because an entry, once inserted, is never removed or replaced, the
`&'static AtomicU64` reference held by a guard is in bijection with the
`TypeId` it was created for; a guard is therefore modelled by that key. -/

/-- A runtime type identifier (`std::any::TypeId`). -/
abbrev TypeId := Nat

/-- `u64` arithmetic is modulo `2^64`. -/
def u64Mod : Nat := 18446744073709551616

/-- The state of one `Census`: the entries of its `DashMap`. -/
abbrev CensusMap := List (TypeId × Nat)

/-- `DashMap::get(&ty)`, reading the stored `AtomicU64` value. -/
def censusGet (ty : TypeId) : CensusMap → Option Nat
  | [] => none
  | (k, v) :: rest => if k = ty then some v else censusGet ty rest

/-- Apply `f` to the value of the (unique) entry for `ty`, if present. -/
def censusModify (ty : TypeId) (f : Nat → Nat) : CensusMap → CensusMap
  | [] => []
  | (k, v) :: rest => if k = ty then (k, f v) :: rest else (k, v) :: censusModify ty f rest

/-- `counts.entry(ty).or_insert_with(|| Box::leak(Box::new(AtomicU64::new(0))))`:
insert a fresh zero-valued counter only if `ty` has no entry. -/
def censusEntryOrInsertZero (ty : TypeId) (c : CensusMap) : CensusMap :=
  if (censusGet ty c).isSome then c else (ty, 0) :: c

/-- `AtomicU64::fetch_add(1, SeqCst)` on `ty`'s counter (wrapping `u64`). -/
def censusFetchAdd (ty : TypeId) (c : CensusMap) : CensusMap :=
  censusModify ty (fun v => (v + 1) % u64Mod) c

/-- `AtomicU64::fetch_sub(1, SeqCst)` on `ty`'s counter (wrapping `u64`). -/
def censusFetchSub (ty : TypeId) (c : CensusMap) : CensusMap :=
  censusModify ty (fun v => (v + (u64Mod - 1)) % u64Mod) c

namespace Census

/-- `Census::EMPTY`: the lazily initialised map starts with no entries. -/
def EMPTY : CensusMap := []

/-- `Census::instances::<T>`, as a state transformer: the method only calls
`DashMap::get` (a pure lookup — it never inserts) and `AtomicU64::load`,
returning the loaded value or `0` on a registry miss, and leaves the map
as it was. -/
def instancesSt (c : CensusMap) (ty : TypeId) : Nat × CensusMap :=
  (((censusGet ty c).map (fun v => v)).getD 0, c)

end Census

/-- A lifetime guard `Instance<T>`, identified by the `TypeId` whose
`&'static AtomicU64` its `count` field references. -/
structure Instance where
  count : TypeId
deriving DecidableEq, Repr

namespace Instance

/-- `Instance::<T>::new()`: `T::census().counts.entry(ty_id).or_insert_with(zero)`
followed by `from_count`, which performs `fetch_add(1, SeqCst)` and stores
the counter reference in the guard. -/
def new (ty : TypeId) (c : CensusMap) : Instance × CensusMap :=
  (⟨ty⟩, censusFetchAdd ty (censusEntryOrInsertZero ty c))

/-- `Clone for Instance<T>`: `Self::from_count(self.count)` — one fresh
`fetch_add(1, SeqCst)` on the same counter. -/
def clone (g : Instance) (c : CensusMap) : Instance × CensusMap :=
  (⟨g.count⟩, censusFetchAdd g.count c)

/-- `Drop for Instance<T>`: `self.count.fetch_sub(1, SeqCst)`. -/
def drop (g : Instance) (c : CensusMap) : CensusMap :=
  censusFetchSub g.count c

end Instance

/-- `Tabulate::instances()`: `Self::census().instances::<Self>()`. -/
def Tabulate.instances (c : CensusMap) (ty : TypeId) : Nat :=
  (Census.instancesSt c ty).1

/-- Construct `n` guards for `ty` in sequence (the guards themselves are
kept alive; only the census evolves). -/
def newN (ty : TypeId) : Nat → CensusMap → CensusMap
  | 0, c => c
  | n + 1, c => newN ty n (Instance.new ty c).2

/-- Drop `m` live guards for `ty` in sequence. -/
def dropN (ty : TypeId) : Nat → CensusMap → CensusMap
  | 0, c => c
  | m + 1, c => dropN ty m (Instance.drop ⟨ty⟩ c)

/-! ## Guard identity operations (src/lib.rs)

`Instance<T>` implements `PartialEq`, `Eq`, `PartialOrd`, `Ord` and `Hash`
as constants: guards carry no distinguishing state. -/

namespace Instance

/-- `PartialEq for Instance<T>`: `fn eq(&self, _: &Self) -> bool { true }`. -/
def eq (_ _ : Instance) : Bool := true

/-- `Ord for Instance<T>`:
`fn cmp(&self, _: &Self) -> Ordering { Ordering::Equal }`. -/
def cmp (_ _ : Instance) : Ordering := Ordering.eq

/-- `PartialOrd for Instance<T>`:
`fn partial_cmp(&self, _: &Self) -> Option<Ordering> { Some(Ordering::Equal) }`. -/
def partialCmp (_ _ : Instance) : Option Ordering := some Ordering.eq

/-- `Hash for Instance<T>`: `fn hash<H: Hasher>(&self, _: &mut H) {}` — the
hasher state (of any hasher type `H`) is returned untouched: no data is fed. -/
def hash {H : Type} (_ : Instance) (state : H) : H := state

end Instance

/-! ## Registry lemmas -/

theorem censusGet_modify_self (ty : TypeId) (f : Nat → Nat) (c : CensusMap) :
    censusGet ty (censusModify ty f c) = (censusGet ty c).map f := by
  induction c with
  | nil => rfl
  | cons p rest ih =>
    obtain ⟨k, v⟩ := p
    by_cases hk : k = ty
    · simp [censusModify, censusGet, hk]
    · simp [censusModify, censusGet, hk, ih]

theorem censusGet_modify_other (ty ty2 : TypeId) (f : Nat → Nat) (c : CensusMap)
    (h : ty2 ≠ ty) :
    censusGet ty2 (censusModify ty f c) = censusGet ty2 c := by
  induction c with
  | nil => rfl
  | cons p rest ih =>
    obtain ⟨k, v⟩ := p
    by_cases hk : k = ty
    · subst hk
      have hne : k ≠ ty2 := fun hc => h hc.symm
      simp [censusModify, censusGet, hne]
    · simp only [censusModify, if_neg hk, censusGet]
      by_cases hk2 : k = ty2
      · simp [hk2]
      · simp [hk2, ih]

theorem censusGet_eoi_self (ty : TypeId) (c : CensusMap) :
    censusGet ty (censusEntryOrInsertZero ty c) = some ((censusGet ty c).getD 0) := by
  unfold censusEntryOrInsertZero
  cases h : censusGet ty c with
  | none => simp [h, censusGet]
  | some v => simp [h]

theorem censusGet_eoi_other (ty ty2 : TypeId) (c : CensusMap) (h : ty2 ≠ ty) :
    censusGet ty2 (censusEntryOrInsertZero ty c) = censusGet ty2 c := by
  unfold censusEntryOrInsertZero
  cases hg : censusGet ty c with
  | none =>
    have hne : ty ≠ ty2 := fun hc => h hc.symm
    simp [censusGet, hne]
  | some v => simp

/-- `Instance::new` leaves `ty`'s counter at old value plus one (wrapping). -/
theorem censusGet_new_self (ty : TypeId) (c : CensusMap) :
    censusGet ty (Instance.new ty c).2 =
      some (((censusGet ty c).getD 0 + 1) % u64Mod) := by
  simp only [Instance.new, censusFetchAdd]
  rw [censusGet_modify_self, censusGet_eoi_self]
  rfl

theorem censusGet_new_other (ty ty2 : TypeId) (c : CensusMap) (h : ty2 ≠ ty) :
    censusGet ty2 (Instance.new ty c).2 = censusGet ty2 c := by
  simp only [Instance.new, censusFetchAdd]
  rw [censusGet_modify_other _ _ _ _ h, censusGet_eoi_other _ _ _ h]

theorem u64Mod_pos : 0 < u64Mod := by
  unfold u64Mod; omega

theorem censusGet_newN_some (ty : TypeId) (n : Nat) :
    ∀ (c : CensusMap) (v : Nat), censusGet ty c = some v → v < u64Mod →
      censusGet ty (newN ty n c) = some ((v + n) % u64Mod) := by
  induction n with
  | zero =>
    intro c v hv hlt
    simp only [newN, hv]
    congr 1
    exact (Nat.mod_eq_of_lt (by omega)).symm
  | succ n ih =>
    intro c v hv hlt
    simp only [newN]
    have step := censusGet_new_self ty c
    rw [hv] at step
    simp only [Option.getD_some] at step
    have := ih _ _ step (Nat.mod_lt _ u64Mod_pos)
    rw [this]
    congr 1
    rw [Nat.mod_add_mod]
    congr 1
    omega

/-- `Clone::clone` on a guard leaves its counter at old value plus one
(wrapping), provided the counter exists (it always does for a guard created
by `Instance::new`). -/
theorem censusGet_clone_self (g : Instance) (c : CensusMap) (v : Nat)
    (h : censusGet g.count c = some v) :
    censusGet g.count (Instance.clone g c).2 = some ((v + 1) % u64Mod) := by
  simp only [Instance.clone, censusFetchAdd]
  rw [censusGet_modify_self, h]
  rfl

theorem censusGet_clone_other (g : Instance) (ty2 : TypeId) (c : CensusMap)
    (h : ty2 ≠ g.count) :
    censusGet ty2 (Instance.clone g c).2 = censusGet ty2 c := by
  simp only [Instance.clone, censusFetchAdd]
  exact censusGet_modify_other _ _ _ _ h

/-- `Drop::drop` on a guard leaves its counter at old value minus one
(wrapping `u64` subtraction). -/
theorem censusGet_drop_self (g : Instance) (c : CensusMap) (v : Nat)
    (h : censusGet g.count c = some v) :
    censusGet g.count (Instance.drop g c) = some ((v + (u64Mod - 1)) % u64Mod) := by
  simp only [Instance.drop, censusFetchSub]
  rw [censusGet_modify_self, h]
  rfl

theorem censusGet_drop_other (g : Instance) (ty2 : TypeId) (c : CensusMap)
    (h : ty2 ≠ g.count) :
    censusGet ty2 (Instance.drop g c) = censusGet ty2 c := by
  simp only [Instance.drop, censusFetchSub]
  exact censusGet_modify_other _ _ _ _ h

theorem censusGet_dropN_some (ty : TypeId) (m : Nat) :
    ∀ (c : CensusMap) (v : Nat), censusGet ty c = some v → v < u64Mod →
      censusGet ty (dropN ty m c) = some ((v + m * (u64Mod - 1)) % u64Mod) := by
  induction m with
  | zero =>
    intro c v hv hlt
    simp only [dropN, hv]
    congr 1
    rw [Nat.zero_mul]
    exact (Nat.mod_eq_of_lt (by omega)).symm
  | succ m ih =>
    intro c v hv hlt
    simp only [dropN]
    have step := censusGet_drop_self ⟨ty⟩ c v hv
    have := ih _ _ step (Nat.mod_lt _ u64Mod_pos)
    rw [this]
    simp only [Option.some.injEq]
    unfold u64Mod
    omega

theorem censusGet_dropN_other (ty ty2 : TypeId) (m : Nat) (h : ty2 ≠ ty) :
    ∀ c : CensusMap, censusGet ty2 (dropN ty m c) = censusGet ty2 c := by
  induction m with
  | zero => intro c; rfl
  | succ m ih =>
    intro c
    simp only [dropN]
    rw [ih, censusGet_drop_other ⟨ty⟩ ty2 c h]

theorem censusGet_newN_other (ty ty2 : TypeId) (n : Nat) (h : ty2 ≠ ty) :
    ∀ c : CensusMap, censusGet ty2 (newN ty n c) = censusGet ty2 c := by
  induction n with
  | zero => intro c; rfl
  | succ n ih =>
    intro c
    simp only [newN]
    rw [ih, censusGet_new_other ty ty2 c h]

/-- From a census with no entry for `ty`, constructing `n + 1` guards leaves
`ty`'s counter at `(n + 1) % 2^64`. -/
theorem censusGet_newN_none (ty : TypeId) (n : Nat) (c : CensusMap)
    (h : censusGet ty c = none) :
    censusGet ty (newN ty (n + 1) c) = some ((n + 1) % u64Mod) := by
  simp only [newN]
  have step := censusGet_new_self ty c
  rw [h] at step
  simp only [Option.getD_none, Nat.zero_add] at step
  have h1 : (1 : Nat) % u64Mod = 1 := Nat.mod_eq_of_lt (by unfold u64Mod; omega)
  rw [h1] at step
  have := censusGet_newN_some ty n _ 1 step (by unfold u64Mod; omega)
  rw [this]
  simp only [Option.some.injEq]
  unfold u64Mod
  omega

theorem instances_eq_getD (c : CensusMap) (ty : TypeId) :
    Tabulate.instances c ty = (censusGet ty c).getD 0 := by
  unfold Tabulate.instances Census.instancesSt
  cases censusGet ty c <;> rfl

theorem censusModify_absent (ty : TypeId) (f : Nat → Nat) (c : CensusMap)
    (h : censusGet ty c = none) : censusModify ty f c = c := by
  induction c with
  | nil => rfl
  | cons p rest ih =>
    obtain ⟨k, v⟩ := p
    by_cases hk : k = ty
    · simp [censusGet, hk] at h
    · simp only [censusGet, if_neg hk] at h
      simp [censusModify, hk, ih h]

theorem dropN_absent (ty : TypeId) (m : Nat) :
    ∀ c : CensusMap, censusGet ty c = none → dropN ty m c = c := by
  induction m with
  | zero => intro c _; rfl
  | succ m ih =>
    intro c h
    simp only [dropN, Instance.drop, censusFetchSub]
    rw [censusModify_absent _ _ _ h, ih c h]

/-- From an untracked start, after `n` constructions `instances()` reads `n`. -/
theorem instances_newN_none (ty : TypeId) (n : Nat) (c : CensusMap)
    (h : censusGet ty c = none) (hn : n < u64Mod) :
    Tabulate.instances (newN ty n c) ty = n := by
  rw [instances_eq_getD]
  cases n with
  | zero => simp [newN, h]
  | succ n0 =>
    rw [censusGet_newN_none ty n0 c h]
    simp only [Option.getD_some]
    exact Nat.mod_eq_of_lt hn

/-- From an untracked start, after `n` constructions and `j ≤ n` drops,
`instances()` reads `n - j`. -/
theorem instances_dropN_newN_none (ty : TypeId) (n j : Nat) (c : CensusMap)
    (h : censusGet ty c = none) (hj : j ≤ n) (hn : n < u64Mod) :
    Tabulate.instances (dropN ty j (newN ty n c)) ty = n - j := by
  rw [instances_eq_getD]
  cases n with
  | zero =>
    have hj0 : j = 0 := Nat.le_zero.mp hj
    subst hj0
    simp [newN, dropN, h]
  | succ n0 =>
    have hsome := censusGet_newN_none ty n0 c h
    have hval : (n0 + 1) % u64Mod = n0 + 1 := Nat.mod_eq_of_lt hn
    rw [hval] at hsome
    rw [censusGet_dropN_some ty j _ _ hsome hn]
    simp only [Option.getD_some]
    unfold u64Mod
    have hjn : j ≤ n0 + 1 := hj
    have hnn : n0 + 1 < 18446744073709551616 := by
      have := hn; unfold u64Mod at this; omega
    omega

/-- Dropping `j ≤ v` guards from a census whose counter for `ty` stores `v`
leaves it at `v - j`. -/
theorem instances_dropN_of_some (ty : TypeId) (j v : Nat) (s : CensusMap)
    (h : censusGet ty s = some v) (hv : v < u64Mod) (hj : j ≤ v) :
    Tabulate.instances (dropN ty j s) ty = v - j := by
  rw [instances_eq_getD, censusGet_dropN_some ty j s v h hv]
  simp only [Option.getD_some]
  unfold u64Mod
  have hvv : v < 18446744073709551616 := by
    have := hv; unfold u64Mod at this; omega
  omega

/-! ## Claim theorems -/

/-- **C2 (counterexample).** `Census::instances` does *not* create a
zero-valued registry entry on a miss: queried on the empty census for
`TypeId` `0`, it returns `0` and leaves the map empty — afterwards there is
still no entry for `0`, refuting the claimed lazy registry-entry creation. -/
theorem instances_no_entry_creation_cex :
    (Census.instancesSt Census.EMPTY 0).1 = 0 ∧
    (Census.instancesSt Census.EMPTY 0).2 = Census.EMPTY ∧
    censusGet 0 (Census.instancesSt Census.EMPTY 0).2 = none :=
  ⟨rfl, rfl, rfl⟩

/-- **C2 (amended).** For every tracked type `T`, `instances::<T>()` returns
the stored counter value (or `0` on a registry miss) and has no side effects
at all: it never creates a registry entry and changes no counter — the
census is returned exactly as it was. -/
theorem instances_no_side_effects (c : CensusMap) (ty : TypeId) :
    (Census.instancesSt c ty).1 = (censusGet ty c).getD 0 ∧
    (Census.instancesSt c ty).2 = c ∧
    Tabulate.instances c ty = (censusGet ty c).getD 0 :=
  ⟨instances_eq_getD c ty, rfl, instances_eq_getD c ty⟩

/-- **C5.** A tracked type that has never had a guard constructed (no
registry entry exists) reads as zero rather than faulting:
`instances::<T>() == 0`, with the census untouched. -/
theorem untracked_reads_zero (c : CensusMap) (ty : TypeId)
    (h : censusGet ty c = none) :
    Census.instancesSt c ty = (0, c) ∧ Tabulate.instances c ty = 0 := by
  constructor
  · unfold Census.instancesSt
    rw [h]
    rfl
  · rw [instances_eq_getD, h]
    rfl

/-- Witness for `untracked_reads_zero` at the empty census and `TypeId` `7`. -/
theorem untracked_reads_zero_witness :
    censusGet 7 Census.EMPTY = none ∧
    (Census.instancesSt Census.EMPTY 7 = (0, Census.EMPTY) ∧
      Tabulate.instances Census.EMPTY 7 = 0) :=
  ⟨rfl, untracked_reads_zero Census.EMPTY 7 rfl⟩

/-- **C8.** Guards carry no observable identity: for every two guards of the
same `Instance<T>` type, `eq` returns `true`, `cmp` returns
`Ordering::Equal`, `partial_cmp` returns `Some(Ordering::Equal)`, and
hashing either guard feeds identical (no) data to the hasher: any hasher
state is left untouched, identically for both guards. -/
theorem guards_no_identity {H : Type} (a b : Instance) (s : H) :
    Instance.eq a b = true ∧
    Instance.cmp a b = Ordering.eq ∧
    Instance.partialCmp a b = some Ordering.eq ∧
    Instance.hash a s = s ∧
    Instance.hash a s = Instance.hash b s :=
  ⟨rfl, rfl, rfl, rfl, rfl⟩

/-- **C6.** For the distributed counter, `sub_assign(n)` is increment by the
negated delta: for every bucket state, thread identity and retry oracle,
`sub_assign buckets tid k n` equals `add_assign buckets tid k (-n)` — there
is no separate decrement code path. -/
theorem sub_assign_is_neg_add_assign (buckets : List Int) (tid k : Nat) (n : Int) :
    DistributedCounter.sub_assign buckets tid k n =
      DistributedCounter.add_assign buckets tid k (-n) := by
  simp only [DistributedCounter.sub_assign, DistributedCounter.add_assign,
    wrapI_add_right]

/-- **C9.** The distributed counter's arithmetic wraps modulo `2^64`: a
successful bucket update stores a value congruent to `observed + n` mod
`2^64` lying in the signed 64-bit range (i.e. `observed + n` computed with
`wrapping_add`), `fetch` accumulates the buckets with `wrapping_add` so its
result is congruent to the net sum mod `2^64`, and the result is exact
whenever the true net value fits in the signed 64-bit word. -/
theorem distributed_wrapping_arithmetic (buckets : List Int) (tid k : Nat)
    (n : Int) (dops : List DOp) (B : Nat) (hlen : 0 < buckets.length)
    (hB : 0 < B) (h3 : -9223372036854775808 ≤ dnetSum dops)
    (h4 : dnetSum dops < 9223372036854775808) :
    ((DistributedCounter.add_assign buckets tid k n).getD
        (DistributedCounter.probe buckets.length tid k) 0 -
      (buckets.getD (DistributedCounter.probe buckets.length tid k) 0 + n)) %
      18446744073709551616 = 0 ∧
    -9223372036854775808 ≤ (DistributedCounter.add_assign buckets tid k n).getD
        (DistributedCounter.probe buckets.length tid k) 0 ∧
    (DistributedCounter.add_assign buckets tid k n).getD
        (DistributedCounter.probe buckets.length tid k) 0 < 9223372036854775808 ∧
    (DistributedCounter.fetch (DistributedCounter.run (DistributedCounter.ZERO B) dops) -
      dnetSum dops) % 18446744073709551616 = 0 ∧
    DistributedCounter.fetch (DistributedCounter.run (DistributedCounter.ZERO B) dops) =
      dnetSum dops := by
  have hset : (DistributedCounter.add_assign buckets tid k n).getD
      (DistributedCounter.probe buckets.length tid k) 0 =
      wrapI (buckets.getD (DistributedCounter.probe buckets.length tid k) 0 + n) := by
    simp only [DistributedCounter.add_assign]
    exact getD_set_self _ _ _ (DistributedCounter.probe_lt _ tid k hlen)
  refine ⟨?_, ?_, ?_, ?_, ?_⟩
  · rw [hset]; exact wrapI_sub_emod _
  · rw [hset]; exact wrapI_lower _
  · rw [hset]; exact wrapI_upper _
  · rw [DistributedCounter.fetch_run_zero B hB]; exact wrapI_sub_emod _
  · rw [DistributedCounter.fetch_run_zero B hB]; exact wrapI_eq_self h3 h4

/-- Witness for `distributed_wrapping_arithmetic`: two buckets `[5, 7]`,
thread `3`, no spurious failures, delta `11`; separately, a three-bucket
counter executing one `add_assign(4)` call. -/
theorem distributed_wrapping_arithmetic_witness :
    0 < ([(5 : Int), 7] : List Int).length ∧ 0 < 3 ∧
    -9223372036854775808 ≤ dnetSum [⟨CounterOp.add 4, 1, 1⟩] ∧
    dnetSum [⟨CounterOp.add 4, 1, 1⟩] < 9223372036854775808 ∧
    (((DistributedCounter.add_assign [(5 : Int), 7] 3 0 11).getD
        (DistributedCounter.probe ([(5 : Int), 7] : List Int).length 3 0) 0 -
      (([(5 : Int), 7] : List Int).getD
        (DistributedCounter.probe ([(5 : Int), 7] : List Int).length 3 0) 0 + 11)) %
      18446744073709551616 = 0 ∧
    -9223372036854775808 ≤ (DistributedCounter.add_assign [(5 : Int), 7] 3 0 11).getD
        (DistributedCounter.probe ([(5 : Int), 7] : List Int).length 3 0) 0 ∧
    (DistributedCounter.add_assign [(5 : Int), 7] 3 0 11).getD
        (DistributedCounter.probe ([(5 : Int), 7] : List Int).length 3 0) 0 <
      9223372036854775808 ∧
    (DistributedCounter.fetch
        (DistributedCounter.run (DistributedCounter.ZERO 3) [⟨CounterOp.add 4, 1, 1⟩]) -
      dnetSum [⟨CounterOp.add 4, 1, 1⟩]) % 18446744073709551616 = 0 ∧
    DistributedCounter.fetch
        (DistributedCounter.run (DistributedCounter.ZERO 3) [⟨CounterOp.add 4, 1, 1⟩]) =
      dnetSum [⟨CounterOp.add 4, 1, 1⟩]) :=
  ⟨by decide, by decide, by decide, by decide,
   distributed_wrapping_arithmetic [(5 : Int), 7] 3 0 11 [⟨CounterOp.add 4, 1, 1⟩] 3
     (by decide) (by decide) (by decide) (by decide)⟩

/-- **C10.** One completed `add_assign` call modifies exactly one of the
buckets — the one reached on the successful attempt — changing its value by
exactly `n` (wrapping) and leaving every other bucket unchanged; the first
bucket attempted is `thread_identity mod B`, and each failed attempt
advances the probe cyclically by one bucket. -/
theorem distributed_add_assign_frame (buckets : List Int) (tid k q j : Nat)
    (n : Int) (h : 0 < buckets.length)
    (hj : j ≠ DistributedCounter.probe buckets.length tid k) :
    DistributedCounter.probe buckets.length tid k < buckets.length ∧
    (DistributedCounter.add_assign buckets tid k n).length = buckets.length ∧
    (DistributedCounter.add_assign buckets tid k n).getD
        (DistributedCounter.probe buckets.length tid k) 0 =
      wrapI (buckets.getD (DistributedCounter.probe buckets.length tid k) 0 + n) ∧
    (DistributedCounter.add_assign buckets tid k n).getD j 0 = buckets.getD j 0 ∧
    DistributedCounter.probe buckets.length tid 0 = tid % buckets.length ∧
    DistributedCounter.probe buckets.length tid (q + 1) =
      (DistributedCounter.probe buckets.length tid q + 1) % buckets.length := by
  refine ⟨DistributedCounter.probe_lt _ tid k h,
    DistributedCounter.length_add_assign buckets tid k n, ?_, ?_, ?_, ?_⟩
  · simp only [DistributedCounter.add_assign]
    exact getD_set_self _ _ _ (DistributedCounter.probe_lt _ tid k h)
  · simp only [DistributedCounter.add_assign]
    exact getD_set_other _ _ _ _ hj
  · show (tid % buckets.length + 0) % buckets.length = tid % buckets.length
    rw [Nat.add_zero]
    exact Nat.mod_mod_of_dvd tid (dvd_refl _)
  · show (tid % buckets.length + (q + 1)) % buckets.length =
      ((tid % buckets.length + q) % buckets.length + 1) % buckets.length
    conv_rhs => rw [Nat.mod_add_mod]
    rw [← Nat.add_assoc]

/-- Witness for `distributed_add_assign_frame`: buckets `[5, 7]`, thread `3`
(probing bucket `1` first), no spurious failures, delta `11`; bucket `0` is
the untouched one. -/
theorem distributed_add_assign_frame_witness :
    0 < ([(5 : Int), 7] : List Int).length ∧
    0 ≠ DistributedCounter.probe ([(5 : Int), 7] : List Int).length 3 0 ∧
    (DistributedCounter.probe ([(5 : Int), 7] : List Int).length 3 0 <
        ([(5 : Int), 7] : List Int).length ∧
    (DistributedCounter.add_assign [(5 : Int), 7] 3 0 11).length =
        ([(5 : Int), 7] : List Int).length ∧
    (DistributedCounter.add_assign [(5 : Int), 7] 3 0 11).getD
        (DistributedCounter.probe ([(5 : Int), 7] : List Int).length 3 0) 0 =
      wrapI (([(5 : Int), 7] : List Int).getD
        (DistributedCounter.probe ([(5 : Int), 7] : List Int).length 3 0) 0 + 11) ∧
    (DistributedCounter.add_assign [(5 : Int), 7] 3 0 11).getD 0 0 =
      ([(5 : Int), 7] : List Int).getD 0 0 ∧
    DistributedCounter.probe ([(5 : Int), 7] : List Int).length 3 0 =
      3 % ([(5 : Int), 7] : List Int).length ∧
    DistributedCounter.probe ([(5 : Int), 7] : List Int).length 3 (4 + 1) =
      (DistributedCounter.probe ([(5 : Int), 7] : List Int).length 3 4 + 1) %
        ([(5 : Int), 7] : List Int).length) :=
  ⟨by decide, by decide,
   distributed_add_assign_frame [(5 : Int), 7] 3 0 4 0 11 (by decide) (by decide)⟩

/-- **C3 (counterexample).** A sequential sequence of increments whose net
sum is `2^63` (each delta a valid `isize`) makes every counter read the
wrapped value `-2^63`, not `2^63`: `read()` does not return exactly `k` for
every sequence. -/
theorem counter_netsum_cex :
    netSum [CounterOp.add 9223372036854775807, CounterOp.add 1] =
      9223372036854775808 ∧
    RelaxedCounter.fetch (RelaxedCounter.run RelaxedCounter.ZERO
      [CounterOp.add 9223372036854775807, CounterOp.add 1]) =
      -9223372036854775808 ∧
    RelaxedCounter.fetch (RelaxedCounter.run RelaxedCounter.ZERO
      [CounterOp.add 9223372036854775807, CounterOp.add 1]) ≠
      netSum [CounterOp.add 9223372036854775807, CounterOp.add 1] :=
  ⟨by decide, by decide, by decide⟩

/-- **C3 (amended).** For every strategy (relaxed, sequentially consistent,
and distributed with any positive bucket count and any thread/retry
oracles), a sequential sequence of increments and decrements from a fresh
zero counter whose net sum `k` fits in the signed 64-bit word makes a
subsequent `read()` return exactly `k` (outside that range the value wraps
modulo `2^64`). -/
theorem counter_netsum_exact (ops : List CounterOp) (dops : List DOp) (B : Nat)
    (hB : 0 < B)
    (h1 : -9223372036854775808 ≤ netSum ops)
    (h2 : netSum ops < 9223372036854775808)
    (h3 : -9223372036854775808 ≤ dnetSum dops)
    (h4 : dnetSum dops < 9223372036854775808) :
    RelaxedCounter.fetch (RelaxedCounter.run RelaxedCounter.ZERO ops) = netSum ops ∧
    SeqCstCounter.fetch (SeqCstCounter.run SeqCstCounter.ZERO ops) = netSum ops ∧
    DistributedCounter.fetch
        (DistributedCounter.run (DistributedCounter.ZERO B) dops) = dnetSum dops := by
  refine ⟨?_, ?_, ?_⟩
  · show RelaxedCounter.run RelaxedCounter.ZERO ops = netSum ops
    rw [RelaxedCounter.run_zero_relaxed]
    exact wrapI_eq_self h1 h2
  · show SeqCstCounter.run SeqCstCounter.ZERO ops = netSum ops
    rw [SeqCstCounter.run_zero_seqcst]
    exact wrapI_eq_self h1 h2
  · rw [DistributedCounter.fetch_run_zero B hB]
    exact wrapI_eq_self h3 h4

/-- Witness for `counter_netsum_exact`: ops `+3, -1` (net `2`) on the single
counters and `+3` (thread 0, no failures) then `-1` (thread 5, two spurious
failures) on a two-bucket distributed counter. -/
theorem counter_netsum_exact_witness :
    0 < 2 ∧
    -9223372036854775808 ≤ netSum [CounterOp.add 3, CounterOp.sub 1] ∧
    netSum [CounterOp.add 3, CounterOp.sub 1] < 9223372036854775808 ∧
    -9223372036854775808 ≤ dnetSum [⟨CounterOp.add 3, 0, 0⟩, ⟨CounterOp.sub 1, 5, 2⟩] ∧
    dnetSum [⟨CounterOp.add 3, 0, 0⟩, ⟨CounterOp.sub 1, 5, 2⟩] < 9223372036854775808 ∧
    (RelaxedCounter.fetch (RelaxedCounter.run RelaxedCounter.ZERO
        [CounterOp.add 3, CounterOp.sub 1]) =
      netSum [CounterOp.add 3, CounterOp.sub 1] ∧
    SeqCstCounter.fetch (SeqCstCounter.run SeqCstCounter.ZERO
        [CounterOp.add 3, CounterOp.sub 1]) =
      netSum [CounterOp.add 3, CounterOp.sub 1] ∧
    DistributedCounter.fetch (DistributedCounter.run (DistributedCounter.ZERO 2)
        [⟨CounterOp.add 3, 0, 0⟩, ⟨CounterOp.sub 1, 5, 2⟩]) =
      dnetSum [⟨CounterOp.add 3, 0, 0⟩, ⟨CounterOp.sub 1, 5, 2⟩]) :=
  ⟨by decide, by decide, by decide, by decide, by decide,
   counter_netsum_exact [CounterOp.add 3, CounterOp.sub 1]
     [⟨CounterOp.add 3, 0, 0⟩, ⟨CounterOp.sub 1, 5, 2⟩] 2
     (by decide) (by decide) (by decide) (by decide) (by decide)⟩

/-- **C4.** `Instance::new` binds the guard to `T`'s counter (creating the
entry if needed) and issues exactly one increment; `clone` issues one fresh
increment against the same counter as its source; dropping a guard issues
exactly one decrement; hence for a previously untracked `T`, after `n`
constructions `instances()` reads `n` and after additionally dropping
`m ≤ n` of the guards it reads `n - m` (e.g. 10, then 5). -/
theorem guard_lifecycle (ty : TypeId) (c c2 : CensusMap) (g : Instance)
    (v n m : Nat) (hv : censusGet g.count c2 = some v)
    (hnone : censusGet ty c = none) (hm : m ≤ n) (hn : n < u64Mod) :
    (Instance.new ty c).1.count = ty ∧
    censusGet ty (Instance.new ty c).2 =
      some (((censusGet ty c).getD 0 + 1) % u64Mod) ∧
    (Instance.clone g c2).1.count = g.count ∧
    censusGet g.count (Instance.clone g c2).2 = some ((v + 1) % u64Mod) ∧
    censusGet g.count (Instance.drop g c2) =
      some ((v + (u64Mod - 1)) % u64Mod) ∧
    Tabulate.instances (newN ty n c) ty = n ∧
    Tabulate.instances (dropN ty m (newN ty n c)) ty = n - m :=
  ⟨rfl, censusGet_new_self ty c, rfl, censusGet_clone_self g c2 v hv,
   censusGet_drop_self g c2 v hv, instances_newN_none ty n c hnone hn,
   instances_dropN_newN_none ty n m c hnone hm hn⟩

/-- Witness for `guard_lifecycle`: untracked type `0` from the empty census
with 10 constructions and 5 drops; clone/drop effects observed on a guard
for type `3` whose counter stores `7`. -/
theorem guard_lifecycle_witness :
    censusGet (Instance.mk 3).count [(3, 7)] = some 7 ∧
    censusGet 0 Census.EMPTY = none ∧ 5 ≤ 10 ∧ 10 < u64Mod ∧
    ((Instance.new 0 Census.EMPTY).1.count = 0 ∧
    censusGet 0 (Instance.new 0 Census.EMPTY).2 =
      some (((censusGet 0 Census.EMPTY).getD 0 + 1) % u64Mod) ∧
    (Instance.clone (Instance.mk 3) [(3, 7)]).1.count = (Instance.mk 3).count ∧
    censusGet (Instance.mk 3).count (Instance.clone (Instance.mk 3) [(3, 7)]).2 =
      some ((7 + 1) % u64Mod) ∧
    censusGet (Instance.mk 3).count (Instance.drop (Instance.mk 3) [(3, 7)]) =
      some ((7 + (u64Mod - 1)) % u64Mod) ∧
    Tabulate.instances (newN 0 10 Census.EMPTY) 0 = 10 ∧
    Tabulate.instances (dropN 0 5 (newN 0 10 Census.EMPTY)) 0 = 10 - 5) :=
  ⟨rfl, rfl, by omega, by unfold u64Mod; omega,
   guard_lifecycle 0 Census.EMPTY [(3, 7)] (Instance.mk 3) 7 10 5 rfl rfl
     (by omega) (by unfold u64Mod; omega)⟩

/-- **C7.** Counters for distinct tracked types are fully independent:
constructing, cloning or dropping a guard of type `A` leaves the observed
count `instances::<B>()` unchanged, for every `B ≠ A`. -/
theorem distinct_types_independent (a b : TypeId) (g : Instance) (c : CensusMap)
    (hab : b ≠ a) (hg : g.count = a) :
    Tabulate.instances (Instance.new a c).2 b = Tabulate.instances c b ∧
    Tabulate.instances (Instance.clone g c).2 b = Tabulate.instances c b ∧
    Tabulate.instances (Instance.drop g c) b = Tabulate.instances c b := by
  have hbg : b ≠ g.count := by rw [hg]; exact hab
  refine ⟨?_, ?_, ?_⟩
  · rw [instances_eq_getD, instances_eq_getD, censusGet_new_other a b c hab]
  · rw [instances_eq_getD, instances_eq_getD, censusGet_clone_other g b c hbg]
  · rw [instances_eq_getD, instances_eq_getD, censusGet_drop_other g b c hbg]

/-- Witness for `distinct_types_independent`: types `0` and `1`, a census
tracking both (counts `2` and `3`), and a guard for type `0`. -/
theorem distinct_types_independent_witness :
    (1 : TypeId) ≠ 0 ∧ (Instance.mk 0).count = 0 ∧
    (Tabulate.instances (Instance.new 0 [(0, 2), (1, 3)]).2 1 =
      Tabulate.instances [(0, 2), (1, 3)] 1 ∧
    Tabulate.instances (Instance.clone (Instance.mk 0) [(0, 2), (1, 3)]).2 1 =
      Tabulate.instances [(0, 2), (1, 3)] 1 ∧
    Tabulate.instances (Instance.drop (Instance.mk 0) [(0, 2), (1, 3)]) 1 =
      Tabulate.instances [(0, 2), (1, 3)] 1) :=
  ⟨by decide, rfl,
   distinct_types_independent 0 1 (Instance.mk 0) [(0, 2), (1, 3)] (by decide) rfl⟩

/-- **C1 (counterexample).** With the dynamic registry, distinct generic
instantiations have distinct `TypeId`s (as Rust guarantees) and therefore
distinct registry entries: with `TypeId`s `0` and `1` standing for
`Foo<i8>` and `Foo<u8>`, after constructing 10 guards for `0` and 5 for `1`
from the empty census, `instances` reads 10 and 5 — not 15 and 15 as
claimed — and after dropping 5 of the `Foo<i8>` guards it reads 5 and 5,
not 10 and 10.  (This matches the crate's own doc-test in src/lib.rs.) -/
theorem dynamic_registry_shared_count_cex :
    Tabulate.instances (newN 1 5 (newN 0 10 Census.EMPTY)) 0 = 10 ∧
    Tabulate.instances (newN 1 5 (newN 0 10 Census.EMPTY)) 1 = 5 ∧
    Tabulate.instances (newN 1 5 (newN 0 10 Census.EMPTY)) 0 ≠ 15 ∧
    Tabulate.instances (newN 1 5 (newN 0 10 Census.EMPTY)) 1 ≠ 15 ∧
    Tabulate.instances (dropN 0 5 (newN 1 5 (newN 0 10 Census.EMPTY))) 0 = 5 ∧
    Tabulate.instances (dropN 0 5 (newN 1 5 (newN 0 10 Census.EMPTY))) 1 = 5 ∧
    Tabulate.instances (dropN 0 5 (newN 1 5 (newN 0 10 Census.EMPTY))) 0 ≠ 10 :=
  ⟨by decide, by decide, by decide, by decide, by decide, by decide, by decide⟩

/-- **C1 (amended).** With the dynamic registry, each concrete generic
instantiation has its own registry entry (keyed by its `TypeId`), so the
counts are independent: for distinct `TypeId`s `a` and `b`, both untracked,
after `n` guards for `a` and `m` guards for `b`, `instances` reads `n` for
`a` and `m` for `b`; after dropping `j ≤ n` of the `a` guards it reads
`n - j` and `m`. -/
theorem dynamic_registry_per_instantiation (a b : TypeId) (c : CensusMap)
    (n m j : Nat) (hab : a ≠ b) (ha : censusGet a c = none)
    (hb : censusGet b c = none) (hn : n < u64Mod) (hm : m < u64Mod)
    (hj : j ≤ n) :
    Tabulate.instances (newN b m (newN a n c)) a = n ∧
    Tabulate.instances (newN b m (newN a n c)) b = m ∧
    Tabulate.instances (dropN a j (newN b m (newN a n c))) a = n - j ∧
    Tabulate.instances (dropN a j (newN b m (newN a n c))) b = m := by
  have hba : b ≠ a := fun h0 => hab h0.symm
  have hsa : censusGet a (newN b m (newN a n c)) = censusGet a (newN a n c) :=
    censusGet_newN_other b a m hab _
  have hsb : censusGet b (newN a n c) = none := by
    rw [censusGet_newN_other a b n hba, hb]
  have conj1 : Tabulate.instances (newN b m (newN a n c)) a = n := by
    rw [instances_eq_getD, hsa, ← instances_eq_getD]
    exact instances_newN_none a n c ha hn
  have conj2 : Tabulate.instances (newN b m (newN a n c)) b = m :=
    instances_newN_none b m _ hsb hm
  refine ⟨conj1, conj2, ?_, ?_⟩
  · cases n with
    | zero =>
      have hj0 : j = 0 := Nat.le_zero.mp hj
      subst hj0
      exact conj1
    | succ n0 =>
      have hsome : censusGet a (newN b m (newN a (n0 + 1) c)) = some (n0 + 1) := by
        rw [hsa, censusGet_newN_none a n0 c ha, Nat.mod_eq_of_lt hn]
      exact instances_dropN_of_some a j (n0 + 1) _ hsome hn hj
  · rw [instances_eq_getD, censusGet_dropN_other a b j hba, ← instances_eq_getD]
    exact conj2

/-- Witness for `dynamic_registry_per_instantiation`: `TypeId`s `0` and `1`
from the empty census, 10 and 5 constructions, 5 drops of the first. -/
theorem dynamic_registry_per_instantiation_witness :
    (0 : TypeId) ≠ 1 ∧ censusGet 0 Census.EMPTY = none ∧
    censusGet 1 Census.EMPTY = none ∧ 10 < u64Mod ∧ 5 < u64Mod ∧ 5 ≤ 10 ∧
    (Tabulate.instances (newN 1 5 (newN 0 10 Census.EMPTY)) 0 = 10 ∧
    Tabulate.instances (newN 1 5 (newN 0 10 Census.EMPTY)) 1 = 5 ∧
    Tabulate.instances (dropN 0 5 (newN 1 5 (newN 0 10 Census.EMPTY))) 0 = 10 - 5 ∧
    Tabulate.instances (dropN 0 5 (newN 1 5 (newN 0 10 Census.EMPTY))) 1 = 5) :=
  ⟨by decide, rfl, rfl, by unfold u64Mod; omega, by unfold u64Mod; omega, by omega,
   dynamic_registry_per_instantiation 0 1 Census.EMPTY 10 5 5 (by decide) rfl rfl
     (by unfold u64Mod; omega) (by unfold u64Mod; omega) (by omega)⟩

end TypeCensus
